import Mathlib

/-!
Shallow embedding of the fast-forward on-disk vector index
(fast_forward/index/disk.py) and of the sequential coalescing utility
(fast_forward/util/__init__.py).

Vectors are modelled as lists of rationals (exact arithmetic standing in
for the floating-point payload, which none of the verified properties
depend on).  The state of the backing HDF5 file is modelled by the
`Store` structure: the resizable 2-D dataset becomes a total function
from row offsets to rows together with an explicit `capacity`, the
`num_vectors` attribute becomes `numVectors`, and the two id groups
become optional association lists (`none` models a group that has never
been created in the file).
-/

namespace FastForward

/-- A stored vector: one row of the HDF5 dataset. -/
abbrev Vec := List ℚ

/-- A zero-filled row (HDF5 zero-initialises allocated storage). -/
def zeroVec (dim : Nat) : Vec := List.replicate dim 0

/-- Ranking mode of the index (fast_forward.index.Mode). -/
inductive Mode where
  | PASSAGE : Mode
  | FIRSTP : Mode
  | MAXP : Mode
  | AVEP : Mode

/-- State of the backing HDF5 file of an OnDiskIndex, plus the
`_resize_min_val` field of the handle that drives the growth policy. -/
structure Store where
  dim : Nat
  resizeMinVal : Nat
  capacity : Nat
  numVectors : Nat
  vectors : Nat → Vec
  docGroup : Option (List (String × List Nat))
  psgGroup : Option (List (String × Nat))

/-- File state right after OnDiskIndex.__init__: a zero-filled dataset of
`init_size` rows, the `num_vectors` attribute set to 0, and no id groups
created yet. -/
def Store.create (dim initSize resizeMinVal : Nat) : Store where
  dim := dim
  resizeMinVal := resizeMinVal
  capacity := initSize
  numVectors := 0
  vectors := fun _ => zeroVec dim
  docGroup := none
  psgGroup := none

/-- Dataset resize along axis 0 (`fp[vectors].resize(new_size, axis=0)`):
rows below the old capacity are preserved, new rows are zero-filled. -/
def hdf5Resize (s : Store) (newSize : Nat) : Store :=
  { s with
    capacity := newSize
    vectors := fun i => if i < s.capacity then s.vectors i else zeroVec s.dim }

/-- The bulk row write `fp[vectors][cur_num_vectors : cur_num_vectors +
num_new_vecs] = vectors`. -/
def writeVectors (s : Store) (cur : Nat) (vecs : List Vec) : Store :=
  { s with
    vectors := fun i =>
      if cur ≤ i ∧ i < cur + vecs.length then vecs.getD (i - cur) (zeroVec s.dim)
      else s.vectors i }

/-- Append an offset to the entry of a doc id, creating the entry when it
is absent (`require_dataset` followed by `np.append`). -/
def docRecord : List (String × List Nat) → String → Nat → List (String × List Nat)
  | [], id, off => [(id, [off])]
  | (k, l) :: rest, id, off =>
    if k = id then (k, l ++ [off]) :: rest else (k, l) :: docRecord rest id off

/-- Set the entry of a passage id, overwriting any prior value
(`require_dataset` followed by a scalar write). -/
def psgRecord : List (String × Nat) → String → Nat → List (String × Nat)
  | [], id, off => [(id, off)]
  | (k, o) :: rest, id, off =>
    if k = id then (k, off) :: rest else (k, o) :: psgRecord rest id off

/-- One iteration of the id-recording loop of `_add`: record the doc id
(if given), then the passage id (if given), for the vector at `off`. -/
def recordIdsStep (s : Store) (off : Nat) (d p : Option String) : Store :=
  let s1 :=
    match d with
    | some id => { s with docGroup := some (docRecord (s.docGroup.getD []) id off) }
    | none => s
  match p with
  | some id => { s1 with psgGroup := some (psgRecord (s1.psgGroup.getD []) id off) }
  | none => s1

/-- The id-recording loop of `_add`, over `zip(doc_ids, psg_ids)` with the
running offset `cur_num_vectors + i`. -/
def recordIds (s : Store) (off : Nat) : List (Option String × Option String) → Store
  | [] => s
  | (d, p) :: rest => recordIds (recordIdsStep s off d p) (off + 1) rest

/-- OnDiskIndex._add: optionally resize, bulk-write the new rows at
`cur_num_vectors`, increment the `num_vectors` attribute, then record the
ids. -/
def Store.add (s : Store) (vecs : List Vec) (docIds psgIds : List (Option String)) : Store :=
  let numNewVecs := vecs.length
  let capacity := s.capacity
  let curNumVectors := s.numVectors
  let spaceLeft := capacity - curNumVectors
  let s1 :=
    if numNewVecs > spaceLeft then
      hdf5Resize s (max (capacity + numNewVecs - spaceLeft) s.resizeMinVal)
    else s
  let s2 := writeVectors s1 curNumVectors vecs
  let s3 := { s2 with numVectors := s2.numVectors + numNewVecs }
  recordIds s3 curNumVectors (docIds.zip psgIds)

/-- A call to `add`: the batch of vectors together with its (optional)
doc ids and passage ids. -/
abbrev Batch := List Vec × List (Option String) × List (Option String)

/-- A sequence of `add` calls, applied in order. -/
def appendAll (s : Store) : List Batch → Store
  | [] => s
  | (v, d, p) :: rest => appendAll (s.add v d p) rest

/-- Association-list lookup for the doc group (h5py group member access;
group keys are unique). -/
def lookupList : List (String × List Nat) → String → Option (List Nat)
  | [], _ => none
  | (k, v) :: rest, id => if k = id then some v else lookupList rest id

/-- Association-list lookup for the passage group. -/
def lookupNat : List (String × Nat) → String → Option Nat
  | [], _ => none
  | (k, v) :: rest, id => if k = id then some v else lookupNat rest id

/-- Error raised by h5py when a group path is opened but absent
(`fp[/ids/doc]` or `fp[/ids/psg]` before any such id was recorded). -/
def keyErrorMsg : String := "KeyError: unable to open object"

/-- Error raised by Python list indexing on an empty stored offset list
(unreachable for stores built by `add`). -/
def indexErrorMsg : String := "IndexError: list index out of range"

/-- Error raised by `np.concatenate` on an empty list of arrays. -/
def concatErrorMsg : String := "ValueError: need at least one array to concatenate"

/-- The mode dispatch of `_get_vectors` for a single id, including the
short-circuit evaluation of the `and` conditions: under the doc modes the
doc group is opened (KeyError when absent), under PASSAGE the passage
group is opened.  `.ok none` models the final `else` branch (warning
logged, `idxs = []`); `.ok (some idxs)` a resolved id. -/
def resolveIdxs (s : Store) (mode : Mode) (id : String) : Except String (Option (List Nat)) :=
  match mode with
  | Mode.MAXP | Mode.AVEP =>
    match s.docGroup with
    | none => Except.error keyErrorMsg
    | some dm =>
      match lookupList dm id with
      | some l => Except.ok (some l)
      | none => Except.ok none
  | Mode.FIRSTP =>
    match s.docGroup with
    | none => Except.error keyErrorMsg
    | some dm =>
      match lookupList dm id with
      | some [] => Except.error indexErrorMsg
      | some (x :: _) => Except.ok (some [x])
      | none => Except.ok none
  | Mode.PASSAGE =>
    match s.psgGroup with
    | none => Except.error keyErrorMsg
    | some pm =>
      match lookupNat pm id with
      | some o => Except.ok (some [o])
      | none => Except.ok none

/-- The per-id loop of `_get_vectors` with running counter `c`: collects
the per-id row blocks (`fp[vectors][idxs]`), the per-id index groups
(`list(range(c, c + len(idxs)))`), and the ids that were warned about. -/
def getVectorsLoop (s : Store) (mode : Mode) :
    List String → Nat → Except String (List (List Vec) × List (List Nat) × List String)
  | [], _ => Except.ok ([], [], [])
  | id :: rest, c =>
    match resolveIdxs s mode id with
    | Except.error e => Except.error e
    | Except.ok o =>
      let idxs := o.getD []
      match getVectorsLoop s mode rest (c + idxs.length) with
      | Except.error e => Except.error e
      | Except.ok (vs, gs, ws) =>
        Except.ok ((idxs.map s.vectors) :: vs, (List.range' c idxs.length) :: gs,
          (match o with | none => [id] | some _ => []) ++ ws)

/-- OnDiskIndex._get_vectors: run the per-id loop, then
`np.concatenate(result_vectors)`, which raises when the list is empty. -/
def getVectors (s : Store) (mode : Mode) (ids : List String) :
    Except String (List Vec × List (List Nat)) :=
  match getVectorsLoop s mode ids 0 with
  | Except.error e => Except.error e
  | Except.ok (vs, gs, _) =>
    match vs with
    | [] => Except.error concatErrorMsg
    | _ => Except.ok (vs.flatten, gs)

/-- The ids for which `_get_vectors` logged a `no vectors` warning. -/
def getWarnings (s : Store) (mode : Mode) (ids : List String) : List String :=
  match getVectorsLoop s mode ids 0 with
  | Except.error _ => []
  | Except.ok (_, _, ws) => ws

/-- Spec-side resolution table (spec section 4.3): offsets returned for an
id under each mode, `none` when the id is absent from the relevant
mapping. -/
def modeOffsetsSpec (dm : List (String × List Nat)) (pm : List (String × Nat))
    (mode : Mode) (id : String) : Option (List Nat) :=
  match mode with
  | Mode.PASSAGE => (lookupNat pm id).map (fun o => [o])
  | Mode.FIRSTP => (lookupList dm id).map (fun l => l.take 1)
  | Mode.MAXP | Mode.AVEP => lookupList dm id

/-- Contiguous index groups for the given block lengths, starting at `c`:
group `i` covers the positions of block `i` inside the concatenation. -/
def groupsOf (c : Nat) : List Nat → List (List Nat)
  | [] => []
  | n :: rest => List.range' c n :: groupsOf (c + n) rest

/-- Group `i` of a `getVectors` result (with a non-empty placeholder for
the error case, so that an empty answer can only come from a real empty
group). -/
def groupAt (r : Except String (List Vec × List (List Nat))) (i : Nat) : List Nat :=
  match r with
  | Except.ok (_, gs) => gs.getD i [1]
  | Except.error _ => [1]

/-- The handle fields that OnDiskIndex.load actually sets. -/
structure Handle where
  mode : Mode
  encoderBatchSize : Nat
  resizeMinVal : Nat

/-- OnDiskIndex.load: constructs the handle via `__new__` and field
assignments only.  The backing file (modelled by the `file` argument,
`none` when missing) is never opened or validated. -/
def load (_file : Option Store) (mode : Mode) (encoderBatchSize resizeMinVal : Nat) :
    Except String Handle :=
  Except.ok { mode := mode, encoderBatchSize := encoderBatchSize, resizeMinVal := resizeMinVal }

/-- Pointwise sum of two rows (numpy broadcasting over equal shapes). -/
def vecAdd (a b : Vec) : Vec := List.zipWith (· + ·) a b

/-- Sum of a non-empty list of rows (`np.sum` over axis 0). -/
def vecSum : List Vec → Vec
  | [] => []
  | [v] => v
  | v :: w :: rest => vecAdd v (vecSum (w :: rest))

/-- Arithmetic mean of a list of rows (`np.mean(A, axis=0)`). -/
def npMean (l : List Vec) : Vec := (vecSum l).map (fun x => x / (l.length : ℚ))

/-- Placeholder for the uninitialised `np.empty(())` that `_coalesce`
uses before the first iteration. -/
def npEmpty : Vec := []

/-- The loop of `create_coalesced_index._coalesce`, carrying the output
list `P_new`, the current cluster `A` with its running mean `A_avg`, and
the `first_iteration` flag.  A boundary is drawn when
`distance_function(v, A_avg) >= delta`; afterwards `v` joins the (fresh
or current) cluster and the mean is recomputed over the whole cluster. -/
def coalesceLoop (dist : Vec → Vec → ℚ) (delta : ℚ) :
    List Vec → Bool → List Vec → List Vec → Vec → List Vec × Vec
  | [], _, pnew, _, aavg => (pnew, aavg)
  | v :: rest, true, pnew, a, _ =>
    coalesceLoop dist delta rest false pnew (a ++ [v]) (npMean (a ++ [v]))
  | v :: rest, false, pnew, a, aavg =>
    if delta ≤ dist v aavg then
      coalesceLoop dist delta rest false (pnew ++ [aavg]) [v] (npMean [v])
    else
      coalesceLoop dist delta rest false pnew (a ++ [v]) (npMean (a ++ [v]))

/-- create_coalesced_index._coalesce: run the loop and always append the
final cluster mean. -/
def coalesce (dist : Vec → Vec → ℚ) (delta : ℚ) (P : List Vec) : List Vec :=
  (coalesceLoop dist delta P true [] [] npEmpty).1 ++
    [(coalesceLoop dist delta P true [] [] npEmpty).2]

/-- Spec-side coalescing (spec section 4.4, steps 2 and 3): process the
remaining vectors against the current cluster, emitting the cluster mean
at each boundary and once at the end. -/
def coalesceSpecAux (dist : Vec → Vec → ℚ) (delta : ℚ) :
    List Vec → List Vec → List Vec
  | cluster, [] => [npMean cluster]
  | cluster, v :: rest =>
    if delta ≤ dist v (npMean cluster) then
      npMean cluster :: coalesceSpecAux dist delta [v] rest
    else
      coalesceSpecAux dist delta (cluster ++ [v]) rest

/-- Spec-side coalescing (spec section 4.4, step 1): the first vector
starts the first cluster. -/
def coalesceSpec (dist : Vec → Vec → ℚ) (delta : ℚ) : List Vec → List Vec
  | [] => []
  | v :: rest => coalesceSpecAux dist delta [v] rest

/-- The Python default `batch_size = batch_size or len(source_index.doc_ids)`:
`None` and `0` are both falsy. -/
def effectiveBatchSize (batchSize : Option Nat) (numDocs : Nat) : Nat :=
  match batchSize with
  | none => numDocs
  | some 0 => numDocs
  | some b => b

/-- The document loop of create_coalesced_index.  The source index is
modelled as the iteration order of `source_index.doc_ids` paired with the
rows `_get_vectors([doc_id])` yields for each doc.  Each iteration first
flushes the accumulators to the target when `len(vectors) == batch_size`,
then extends them with the coalesced rows of the current doc; a final
flush happens when the accumulator is non-empty.  The returned list is
the sequence of `target_index.add` calls. -/
def coalesceBatchLoop (dist : Vec → Vec → ℚ) (delta : ℚ) (batchSize : Nat) :
    List (String × List Vec) → List Vec → List String → List (List Vec × List String)
  | [], vecs, dids => if 0 < vecs.length then [(vecs, dids)] else []
  | (d, vs) :: rest, vecs, dids =>
    if vecs.length = batchSize then
      (vecs, dids) ::
        coalesceBatchLoop dist delta batchSize rest (coalesce dist delta vs)
          (List.replicate (coalesce dist delta vs).length d)
    else
      coalesceBatchLoop dist delta batchSize rest (vecs ++ coalesce dist delta vs)
        (dids ++ List.replicate (coalesce dist delta vs).length d)

/-- All doc ids written to the target across the flushes. -/
def flushedDocIds (flushes : List (List Vec × List String)) : List String :=
  (flushes.map Prod.snd).flatten

/-- Message of a failed Python `assert`. -/
def assertErrorMsg : String := "AssertionError"

/-- create_coalesced_index: assert the target is empty, derive the
effective batch size, run the document loop, and finally assert that the
source and target doc-id sets agree.  The target index is represented by
its current doc ids (`targetDocIds`); on success the result is the list
of `add` calls made on the target. -/
def createCoalescedIndex (dist : Vec → Vec → ℚ) (delta : ℚ)
    (source : List (String × List Vec)) (batchSize : Option Nat)
    (targetDocIds : List String) : Except String (List (List Vec × List String)) :=
  if targetDocIds.length = 0 then
    let flushes :=
      coalesceBatchLoop dist delta (effectiveBatchSize batchSize source.length) source [] []
    if (source.map Prod.fst).toFinset = (flushedDocIds flushes).toFinset then
      Except.ok flushes
    else Except.error assertErrorMsg
  else Except.error assertErrorMsg

/-- The id-recording mutations of `_add` as individual file writes, two
at most per vector (doc entry append, passage entry overwrite). -/
def idSteps (off : Nat) : List (Option String × Option String) → List (Store → Store)
  | [] => []
  | (d, p) :: rest =>
    (match d with
     | some id => [fun s => { s with docGroup := some (docRecord (s.docGroup.getD []) id off) }]
     | none => []) ++
    (match p with
     | some id => [fun s => { s with psgGroup := some (psgRecord (s.psgGroup.getD []) id off) }]
     | none => []) ++
    idSteps (off + 1) rest

/-- The mutations `_add` performs on the file, in program order: the
optional dataset resize, the bulk row write, the `num_vectors` attribute
increment, then the id records.  The sizes are read from the state at
entry (`s0`), as the Python reads them before mutating. -/
def addSteps (s0 : Store) (vecs : List Vec) (docIds psgIds : List (Option String)) :
    List (Store → Store) :=
  (if vecs.length > s0.capacity - s0.numVectors then
    [fun s => hdf5Resize s
      (max (s0.capacity + vecs.length - (s0.capacity - s0.numVectors)) s0.resizeMinVal)]
   else []) ++
  [fun s => writeVectors s s0.numVectors vecs,
   fun s => { s with numVectors := s.numVectors + vecs.length }] ++
  idSteps s0.numVectors (docIds.zip psgIds)

/-- Run a list of mutations in order. -/
def applyAll (steps : List (Store → Store)) (s : Store) : Store :=
  steps.foldl (fun st f => f st) s

/-- Run only the first `k` mutations: the file state observable after a
failure that interrupts `_add` between mutation `k` and mutation `k+1`. -/
def applyFirstK (k : Nat) (steps : List (Store → Store)) (s : Store) : Store :=
  applyAll (steps.take k) s

/-! Projection lemmas for the primitive file mutations. -/

@[simp] theorem create_numVectors (dim initSize rmv : Nat) :
    (Store.create dim initSize rmv).numVectors = 0 := rfl

@[simp] theorem create_capacity (dim initSize rmv : Nat) :
    (Store.create dim initSize rmv).capacity = initSize := rfl

@[simp] theorem hdf5Resize_numVectors (s : Store) (n : Nat) :
    (hdf5Resize s n).numVectors = s.numVectors := rfl

@[simp] theorem hdf5Resize_capacity (s : Store) (n : Nat) :
    (hdf5Resize s n).capacity = n := rfl

@[simp] theorem hdf5Resize_resizeMinVal (s : Store) (n : Nat) :
    (hdf5Resize s n).resizeMinVal = s.resizeMinVal := rfl

@[simp] theorem writeVectors_numVectors (s : Store) (cur : Nat) (vecs : List Vec) :
    (writeVectors s cur vecs).numVectors = s.numVectors := rfl

@[simp] theorem writeVectors_capacity (s : Store) (cur : Nat) (vecs : List Vec) :
    (writeVectors s cur vecs).capacity = s.capacity := rfl

@[simp] theorem recordIdsStep_numVectors (s : Store) (off : Nat) (d p : Option String) :
    (recordIdsStep s off d p).numVectors = s.numVectors := by
  cases d <;> cases p <;> rfl

@[simp] theorem recordIdsStep_capacity (s : Store) (off : Nat) (d p : Option String) :
    (recordIdsStep s off d p).capacity = s.capacity := by
  cases d <;> cases p <;> rfl

@[simp] theorem recordIdsStep_vectors (s : Store) (off : Nat) (d p : Option String) :
    (recordIdsStep s off d p).vectors = s.vectors := by
  cases d <;> cases p <;> rfl

@[simp] theorem recordIds_numVectors (l : List (Option String × Option String)) :
    ∀ (s : Store) (off : Nat), (recordIds s off l).numVectors = s.numVectors := by
  induction l with
  | nil => intro s off; rfl
  | cons hd rest ih =>
    intro s off
    obtain ⟨d, p⟩ := hd
    simp only [recordIds]
    rw [ih, recordIdsStep_numVectors]

@[simp] theorem recordIds_capacity (l : List (Option String × Option String)) :
    ∀ (s : Store) (off : Nat), (recordIds s off l).capacity = s.capacity := by
  induction l with
  | nil => intro s off; rfl
  | cons hd rest ih =>
    intro s off
    obtain ⟨d, p⟩ := hd
    simp only [recordIds]
    rw [ih, recordIdsStep_capacity]

@[simp] theorem recordIds_vectors (l : List (Option String × Option String)) :
    ∀ (s : Store) (off : Nat), (recordIds s off l).vectors = s.vectors := by
  induction l with
  | nil => intro s off; rfl
  | cons hd rest ih =>
    intro s off
    obtain ⟨d, p⟩ := hd
    simp only [recordIds]
    rw [ih, recordIdsStep_vectors]

/-! Behaviour of a single `_add` call. -/

theorem add_numVectors (s : Store) (vecs : List Vec) (d p : List (Option String)) :
    (s.add vecs d p).numVectors = s.numVectors + vecs.length := by
  unfold Store.add
  by_cases h : vecs.length > s.capacity - s.numVectors <;> simp [h]

theorem add_capacity (s : Store) (vecs : List Vec) (d p : List (Option String)) :
    (s.add vecs d p).capacity =
      if vecs.length > s.capacity - s.numVectors then
        max (s.capacity + vecs.length - (s.capacity - s.numVectors)) s.resizeMinVal
      else s.capacity := by
  unfold Store.add
  by_cases h : vecs.length > s.capacity - s.numVectors <;> simp [h]

theorem add_inv (s : Store) (vecs : List Vec) (d p : List (Option String))
    (hinv : s.numVectors ≤ s.capacity) :
    (s.add vecs d p).numVectors ≤ (s.add vecs d p).capacity := by
  rw [add_numVectors, add_capacity]
  by_cases h : vecs.length > s.capacity - s.numVectors
  · rw [if_pos h]
    have he : s.capacity + vecs.length - (s.capacity - s.numVectors)
        = s.numVectors + vecs.length := by omega
    rw [he]
    exact le_max_left _ _
  · rw [if_neg h]
    omega

theorem add_vectors_old (s : Store) (vecs : List Vec) (d p : List (Option String)) (i : Nat)
    (hinv : s.numVectors ≤ s.capacity) (hi : i < s.numVectors) :
    (s.add vecs d p).vectors i = s.vectors i := by
  unfold Store.add
  have h1 : ¬(s.numVectors ≤ i ∧ i < s.numVectors + vecs.length) := by omega
  have h2 : i < s.capacity := lt_of_lt_of_le hi hinv
  by_cases h : vecs.length > s.capacity - s.numVectors <;>
    simp [h, writeVectors, hdf5Resize, h1, h2]

theorem add_vectors_new (s : Store) (vecs : List Vec) (d p : List (Option String))
    (j : Nat) (dflt : Vec) (hj : j < vecs.length) :
    (s.add vecs d p).vectors (s.numVectors + j) = vecs.getD j dflt := by
  unfold Store.add
  have h1 : s.numVectors ≤ s.numVectors + j ∧ s.numVectors + j < s.numVectors + vecs.length := by
    omega
  have h2 : s.numVectors + j - s.numVectors = j := by omega
  by_cases h : vecs.length > s.capacity - s.numVectors <;>
    simp [h, writeVectors, h1, h2, List.getElem?_eq_getElem hj]

/-! Behaviour of a sequence of `add` calls. -/

theorem appendAll_spec (dflt : Vec) (batches : List Batch) :
    ∀ (s : Store), s.numVectors ≤ s.capacity →
      (appendAll s batches).numVectors
          = s.numVectors + (batches.map fun b => b.1.length).sum
      ∧ (appendAll s batches).numVectors ≤ (appendAll s batches).capacity
      ∧ (∀ i, i < s.numVectors → (appendAll s batches).vectors i = s.vectors i)
      ∧ (∀ j, j < (batches.map fun b => b.1.length).sum →
          (appendAll s batches).vectors (s.numVectors + j)
            = ((batches.map fun b => b.1).flatten).getD j dflt) := by
  induction batches with
  | nil =>
    intro s hs
    refine ⟨by simp [appendAll], by simpa [appendAll] using hs, fun i _ => rfl, ?_⟩
    intro j hj
    simp at hj
  | cons b rest ih =>
    intro s hs
    obtain ⟨v, d, p⟩ := b
    have hinv' := add_inv s v d p hs
    obtain ⟨ih1, ih2, ih3, ih4⟩ := ih (s.add v d p) hinv'
    have hlen : (appendAll s ((v, d, p) :: rest)).numVectors
        = s.numVectors + (v.length + (rest.map fun b => b.1.length).sum) := by
      simp only [appendAll]
      rw [ih1, add_numVectors]
      omega
    refine ⟨by simpa using hlen, by simpa [appendAll] using ih2, ?_, ?_⟩
    · intro i hi
      simp only [appendAll]
      rw [ih3 i (by rw [add_numVectors]; omega)]
      exact add_vectors_old s v d p i hs hi
    · intro j hj
      simp only [appendAll]
      simp only [List.map_cons, List.sum_cons] at hj
      by_cases hjv : j < v.length
      · have hpos : s.numVectors + j < (s.add v d p).numVectors := by
          rw [add_numVectors]; omega
        rw [ih3 _ hpos, add_vectors_new s v d p j dflt hjv]
        simp only [List.map_cons, List.flatten_cons]
        rw [List.getD_append _ _ _ _ hjv]
      · have hj' : j - v.length < (rest.map fun b => b.1.length).sum := by omega
        have harith : s.numVectors + j = (s.add v d p).numVectors + (j - v.length) := by
          rw [add_numVectors]; omega
        rw [harith, ih4 _ hj']
        simp only [List.map_cons, List.flatten_cons]
        rw [List.getD_append_right _ _ _ _ (by omega)]

/-- C1: for every sequence of `add` calls on a freshly created store, the
final `num_vectors` equals the sum of the batch sizes, and the row at
every offset below it is the corresponding vector of the concatenation of
the appended batches, in append order. -/
theorem c1_append_length_and_order (dim initSize rmv : Nat) (batches : List Batch) (i : Nat)
    (hi : i < (appendAll (Store.create dim initSize rmv) batches).numVectors) :
    (appendAll (Store.create dim initSize rmv) batches).numVectors
        = (batches.map fun b => b.1.length).sum
    ∧ (appendAll (Store.create dim initSize rmv) batches).vectors i
        = ((batches.map fun b => b.1).flatten).getD i (zeroVec dim) := by
  obtain ⟨h1, _, _, h4⟩ :=
    appendAll_spec (zeroVec dim) batches (Store.create dim initSize rmv) (by simp)
  rw [create_numVectors, Nat.zero_add] at h1
  refine ⟨h1, ?_⟩
  have hi' : i < (batches.map fun b => b.1.length).sum := by rw [← h1]; exact hi
  have := h4 i hi'
  rwa [create_numVectors, Nat.zero_add] at this

/-- Batches used by the C1 witness: one batch of one vector followed by
one batch of two vectors, overflowing the initial capacity of 2. -/
def c1Batches : List Batch :=
  [([[1]], [none], [none]), ([[2], [3]], [some "d1", some "d1"], [none, none])]

/-- Witness for C1 at a concrete store and offset. -/
theorem c1_append_length_and_order_witness :
    (2 < (appendAll (Store.create 1 2 3) c1Batches).numVectors)
    ∧ ((appendAll (Store.create 1 2 3) c1Batches).numVectors
          = (c1Batches.map fun b => b.1.length).sum
       ∧ (appendAll (Store.create 1 2 3) c1Batches).vectors 2
          = ((c1Batches.map fun b => b.1).flatten).getD 2 (zeroVec 1)) :=
  ⟨by decide, c1_append_length_and_order 1 2 3 c1Batches 2 (by decide)⟩

/-- C2: an `add` that does not fit into the remaining space grows the
capacity to exactly `max(capacity + n - (capacity - count), resize_min_val)`,
preserves every row already stored, and the new capacity accommodates the
whole batch (in particular, a full 16-row store receiving 20 vectors ends
with capacity at least 36). -/
theorem c2_resize_growth (s : Store) (vecs : List Vec) (d p : List (Option String)) (i : Nat)
    (hinv : s.numVectors ≤ s.capacity)
    (hfull : s.capacity - s.numVectors < vecs.length)
    (hi : i < s.numVectors) :
    (s.add vecs d p).capacity
        = max (s.capacity + vecs.length - (s.capacity - s.numVectors)) s.resizeMinVal
    ∧ (s.add vecs d p).vectors i = s.vectors i
    ∧ s.numVectors + vecs.length ≤ (s.add vecs d p).capacity := by
  have hcap := add_capacity s vecs d p
  rw [if_pos (by omega)] at hcap
  refine ⟨hcap, add_vectors_old s vecs d p i hinv hi, ?_⟩
  rw [hcap]
  have he : s.capacity + vecs.length - (s.capacity - s.numVectors)
      = s.numVectors + vecs.length := by omega
  rw [he]
  exact le_max_left _ _

/-- A full store for the C2 witness: 16 rows, all occupied. -/
def c2Store : Store where
  dim := 1
  resizeMinVal := 5
  capacity := 16
  numVectors := 16
  vectors := fun i => [(i : ℚ)]
  docGroup := none
  psgGroup := none

/-- Batch of 20 vectors for the C2 witness. -/
def c2Vecs : List Vec := List.replicate 20 [0]

/-- Witness for C2: appending 20 vectors to the full 16-slot store. -/
theorem c2_resize_growth_witness :
    (c2Store.numVectors ≤ c2Store.capacity
     ∧ c2Store.capacity - c2Store.numVectors < c2Vecs.length
     ∧ 5 < c2Store.numVectors)
    ∧ ((c2Store.add c2Vecs [] []).capacity
          = max (c2Store.capacity + c2Vecs.length - (c2Store.capacity - c2Store.numVectors))
              c2Store.resizeMinVal
       ∧ (c2Store.add c2Vecs [] []).vectors 5 = c2Store.vectors 5
       ∧ c2Store.numVectors + c2Vecs.length ≤ (c2Store.add c2Vecs [] []).capacity) :=
  ⟨⟨by decide, by decide, by decide⟩,
    c2_resize_growth c2Store c2Vecs [] [] 5 (by decide) (by decide) (by decide)⟩

/-! Retrieval: `_get_vectors` against the spec resolution table. -/

theorem lookupList_ne_nil {dm : List (String × List Nat)} {id : String} {l : List Nat}
    (hne : ∀ q ∈ dm, q.2 ≠ []) (h : lookupList dm id = some l) : l ≠ [] := by
  induction dm with
  | nil => simp [lookupList] at h
  | cons hd rest ih =>
    obtain ⟨k, v⟩ := hd
    by_cases hk : k = id
    · simp only [lookupList, if_pos hk, Option.some.injEq] at h
      rw [← h]
      exact hne (k, v) (List.mem_cons_self _ _)
    · simp only [lookupList, if_neg hk] at h
      exact ih (fun q hq => hne q (List.mem_cons_of_mem _ hq)) h

theorem resolveIdxs_spec (s : Store) (dm : List (String × List Nat))
    (pm : List (String × Nat)) (hdoc : s.docGroup = some dm) (hpsg : s.psgGroup = some pm)
    (hne : ∀ q ∈ dm, q.2 ≠ []) (mode : Mode) (id : String) :
    resolveIdxs s mode id = Except.ok (modeOffsetsSpec dm pm mode id) := by
  cases mode with
  | PASSAGE =>
    simp only [resolveIdxs, modeOffsetsSpec, hpsg]
    cases h : lookupNat pm id <;> simp [h]
  | FIRSTP =>
    simp only [resolveIdxs, modeOffsetsSpec, hdoc]
    cases h : lookupList dm id with
    | none => simp [h]
    | some l =>
      cases l with
      | nil => exact absurd rfl (lookupList_ne_nil hne h)
      | cons x t => simp [h]
  | MAXP =>
    simp only [resolveIdxs, modeOffsetsSpec, hdoc]
    cases h : lookupList dm id <;> simp [h]
  | AVEP =>
    simp only [resolveIdxs, modeOffsetsSpec, hdoc]
    cases h : lookupList dm id <;> simp [h]

theorem getVectorsLoop_spec (s : Store) (dm : List (String × List Nat))
    (pm : List (String × Nat)) (hdoc : s.docGroup = some dm) (hpsg : s.psgGroup = some pm)
    (hne : ∀ q ∈ dm, q.2 ≠ []) (mode : Mode) :
    ∀ (ids : List String) (c : Nat),
      getVectorsLoop s mode ids c = Except.ok
        ( ids.map (fun id => ((modeOffsetsSpec dm pm mode id).getD []).map s.vectors)
        , groupsOf c (ids.map fun id => ((modeOffsetsSpec dm pm mode id).getD []).length)
        , ids.filter (fun id => (modeOffsetsSpec dm pm mode id).isNone) ) := by
  intro ids
  induction ids with
  | nil => intro c; rfl
  | cons id rest ih =>
    intro c
    have hres := resolveIdxs_spec s dm pm hdoc hpsg hne mode id
    simp only [getVectorsLoop, hres, ih]
    cases ho : modeOffsetsSpec dm pm mode id <;>
      simp [ho, groupsOf, List.filter_cons]

theorem getVectors_ok (s : Store) (dm : List (String × List Nat))
    (pm : List (String × Nat)) (mode : Mode) (ids : List String)
    (hdoc : s.docGroup = some dm) (hpsg : s.psgGroup = some pm)
    (hne : ∀ q ∈ dm, q.2 ≠ []) (hids : ids ≠ []) :
    getVectors s mode ids = Except.ok
      ( (ids.map fun id => ((modeOffsetsSpec dm pm mode id).getD []).map s.vectors).flatten
      , groupsOf 0 (ids.map fun id => ((modeOffsetsSpec dm pm mode id).getD []).length) ) := by
  unfold getVectors
  rw [getVectorsLoop_spec s dm pm hdoc hpsg hne mode ids 0]
  cases ids with
  | nil => exact absurd rfl hids
  | cons id rest => rfl

theorem getWarnings_spec (s : Store) (dm : List (String × List Nat))
    (pm : List (String × Nat)) (mode : Mode) (ids : List String)
    (hdoc : s.docGroup = some dm) (hpsg : s.psgGroup = some pm)
    (hne : ∀ q ∈ dm, q.2 ≠ []) :
    getWarnings s mode ids = ids.filter (fun id => (modeOffsetsSpec dm pm mode id).isNone) := by
  unfold getWarnings
  rw [getVectorsLoop_spec s dm pm hdoc hpsg hne mode ids 0]

theorem groupsOf_getD_empty :
    ∀ (lens : List Nat) (c i : Nat), i < lens.length → lens.getD i 1 = 0 →
      (groupsOf c lens).getD i [1] = [] := by
  intro lens
  induction lens with
  | nil => intro c i hi; simp at hi
  | cons n rest ih =>
    intro c i hi h0
    cases i with
    | zero =>
      simp only [List.getD_cons_zero] at h0
      subst h0
      rfl
    | succ i =>
      simp only [List.getD_cons_succ] at h0
      simp only [groupsOf, List.getD_cons_succ]
      exact ih (c + n) i (by simpa using hi) h0

theorem getD_map_of_lt {α β : Type} (f : α → β) (l : List α) (i : Nat)
    (d : α) (d' : β) (hi : i < l.length) : (l.map f).getD i d' = f (l.getD i d) := by
  rw [List.getD_eq_getElem _ _ (by simpa using hi), List.getD_eq_getElem _ _ hi,
    List.getElem_map]

/-- C3 (amended): on a store whose two id groups exist (with the stored
doc lists non-empty, as `add` maintains), `get_vectors` on a non-empty id
list returns the concatenation, in request order, of the rows resolved
for each id by the mode table, with `groups[i]` the contiguous index
range of `ids[i]` inside the concatenation (empty for an unresolved
id). -/
theorem c3_get_vectors_concat (s : Store) (dm : List (String × List Nat))
    (pm : List (String × Nat)) (mode : Mode) (ids : List String)
    (hdoc : s.docGroup = some dm) (hpsg : s.psgGroup = some pm)
    (hne : ∀ q ∈ dm, q.2 ≠ []) (hids : ids ≠ []) :
    getVectors s mode ids = Except.ok
      ( (ids.map fun id => ((modeOffsetsSpec dm pm mode id).getD []).map s.vectors).flatten
      , groupsOf 0 (ids.map fun id => ((modeOffsetsSpec dm pm mode id).getD []).length) ) :=
  getVectors_ok s dm pm mode ids hdoc hpsg hne hids

/-- A populated store: doc id `d1` owns offsets 5, 6, 7 and passage id
`p1` owns offset 9 (the spec section 8 example). -/
def c3Store : Store where
  dim := 1
  resizeMinVal := 0
  capacity := 10
  numVectors := 10
  vectors := fun i => [(i : ℚ)]
  docGroup := some [("d1", [5, 6, 7])]
  psgGroup := some [("p1", 9)]

/-- Counterexample to C3 as stated: with an empty identifier list,
`get_vectors` raises (the concatenation of zero arrays) instead of
returning an empty concatenation with no groups. -/
theorem c3_empty_ids_cx :
    getVectors c3Store Mode.MAXP [] = Except.error concatErrorMsg := rfl

/-- Witness for the amended C3 on the populated store under MAXP, with
one resolved and one unresolved id. -/
theorem c3_get_vectors_concat_witness :
    (c3Store.docGroup = some [("d1", [5, 6, 7])]
     ∧ c3Store.psgGroup = some [("p1", 9)]
     ∧ (∀ q ∈ [("d1", [5, 6, 7])], q.2 ≠ ([] : List Nat))
     ∧ (["d1", "zz"] : List String) ≠ [])
    ∧ getVectors c3Store Mode.MAXP ["d1", "zz"] = Except.ok
        ( ((["d1", "zz"] : List String).map fun id =>
            ((modeOffsetsSpec [("d1", [5, 6, 7])] [("p1", 9)] Mode.MAXP id).getD []).map
              c3Store.vectors).flatten
        , groupsOf 0 ((["d1", "zz"] : List String).map fun id =>
            ((modeOffsetsSpec [("d1", [5, 6, 7])] [("p1", 9)] Mode.MAXP id).getD []).length) ) :=
  ⟨⟨rfl, rfl, by decide, by decide⟩,
    c3_get_vectors_concat c3Store [("d1", [5, 6, 7])] [("p1", 9)] Mode.MAXP ["d1", "zz"]
      rfl rfl (by decide) (by decide)⟩

/-- C6 (amended): provided the id group for the active mode exists (and
stored doc lists are non-empty, as `add` maintains), an id that does not
resolve under the mode table is non-fatal: the whole lookup still
succeeds, the group of that id is empty, and the id is logged as a
warning. -/
theorem c6_unresolved_id_nonfatal (s : Store) (dm : List (String × List Nat))
    (pm : List (String × Nat)) (mode : Mode) (ids : List String) (i : Nat)
    (hdoc : s.docGroup = some dm) (hpsg : s.psgGroup = some pm)
    (hne : ∀ q ∈ dm, q.2 ≠ []) (hi : i < ids.length)
    (hbad : modeOffsetsSpec dm pm mode (ids.getD i "") = none) :
    (getVectors s mode ids).isOk = true
    ∧ groupAt (getVectors s mode ids) i = []
    ∧ ids.getD i "" ∈ getWarnings s mode ids := by
  have hids : ids ≠ [] := by
    intro h
    subst h
    simp at hi
  have hok := getVectors_ok s dm pm mode ids hdoc hpsg hne hids
  refine ⟨by rw [hok]; rfl, ?_, ?_⟩
  · rw [hok]
    unfold groupAt
    refine groupsOf_getD_empty _ 0 i (by simpa using hi) ?_
    rw [getD_map_of_lt _ ids i "" 1 hi, hbad]
    rfl
  · rw [getWarnings_spec s dm pm mode ids hdoc hpsg hne]
    rw [List.mem_filter]
    refine ⟨?_, by rw [hbad]; rfl⟩
    rw [List.getD_eq_getElem _ _ hi]
    exact List.getElem_mem hi

/-- Counterexample to C6 as stated: on a fresh store (no doc group in the
file yet) a MAXP lookup of an unknown id raises KeyError instead of
warning and returning an empty group. -/
theorem c6_missing_group_cx :
    getVectors (Store.create 4 16 8) Mode.MAXP ["x"] = Except.error keyErrorMsg := rfl

/-- A populated store for the C6 witness. -/
def c6Store : Store where
  dim := 1
  resizeMinVal := 0
  capacity := 10
  numVectors := 10
  vectors := fun i => [(i : ℚ)]
  docGroup := some [("d1", [5, 6, 7])]
  psgGroup := some [("p1", 9)]

/-- Witness for the amended C6: FIRSTP lookup of an unknown id followed
by a known id. -/
theorem c6_unresolved_id_nonfatal_witness :
    (c6Store.docGroup = some [("d1", [5, 6, 7])]
     ∧ c6Store.psgGroup = some [("p1", 9)]
     ∧ (∀ q ∈ [("d1", [5, 6, 7])], q.2 ≠ ([] : List Nat))
     ∧ 0 < (["zz", "d1"] : List String).length
     ∧ modeOffsetsSpec [("d1", [5, 6, 7])] [("p1", 9)] Mode.FIRSTP
         ((["zz", "d1"] : List String).getD 0 "") = none)
    ∧ ((getVectors c6Store Mode.FIRSTP ["zz", "d1"]).isOk = true
       ∧ groupAt (getVectors c6Store Mode.FIRSTP ["zz", "d1"]) 0 = []
       ∧ (["zz", "d1"] : List String).getD 0 "" ∈
           getWarnings c6Store Mode.FIRSTP ["zz", "d1"]) :=
  ⟨⟨rfl, rfl, by decide, by decide, by decide⟩,
    c6_unresolved_id_nonfatal c6Store [("d1", [5, 6, 7])] [("p1", 9)] Mode.FIRSTP
      ["zz", "d1"] 0 rfl rfl (by decide) (by decide) (by decide)⟩

/-- C10: `get_vectors` with an empty identifier sequence always fails
(np.concatenate raises on an empty list of arrays), so a successful call
requires at least one requested id. -/
theorem c10_empty_ids_error (s : Store) (mode : Mode) :
    getVectors s mode [] = Except.error concatErrorMsg := rfl

/-! Coalescing: the loop of `_coalesce` against the spec clustering. -/

theorem coalesceLoop_spec (dist : Vec → Vec → ℚ) (delta : ℚ) :
    ∀ (rest pnew a : List Vec),
      (coalesceLoop dist delta rest false pnew a (npMean a)).1 ++
          [(coalesceLoop dist delta rest false pnew a (npMean a)).2]
        = pnew ++ coalesceSpecAux dist delta a rest := by
  intro rest
  induction rest with
  | nil =>
    intro pnew a
    simp [coalesceLoop, coalesceSpecAux]
  | cons v rest ih =>
    intro pnew a
    simp only [coalesceLoop, coalesceSpecAux]
    by_cases hd : delta ≤ dist v (npMean a)
    · rw [if_pos hd, if_pos hd, ih (pnew ++ [npMean a]) [v]]
      simp
    · rw [if_neg hd, if_neg hd]
      exact ih pnew (a ++ [v])

theorem coalesceSpecAux_length (dist : Vec → Vec → ℚ) (delta : ℚ) :
    ∀ (rest cluster : List Vec),
      1 ≤ (coalesceSpecAux dist delta cluster rest).length
      ∧ (coalesceSpecAux dist delta cluster rest).length ≤ rest.length + 1 := by
  intro rest
  induction rest with
  | nil =>
    intro cluster
    simp [coalesceSpecAux]
  | cons v rest ih =>
    intro cluster
    simp only [coalesceSpecAux]
    by_cases hd : delta ≤ dist v (npMean cluster)
    · rw [if_pos hd]
      have h := ih [v]
      refine ⟨by simp, ?_⟩
      simp only [List.length_cons]
      omega
    · rw [if_neg hd]
      have h := ih (cluster ++ [v])
      refine ⟨h.1, ?_⟩
      simp only [List.length_cons]
      omega

/-- C4: for a non-empty input, `_coalesce` emits exactly the cluster
means of the single left-to-right pass described by the spec (boundary
drawn exactly when the distance to the running cluster mean is at least
`delta`, the mean recomputed as the arithmetic mean of the cluster after
each join, final cluster always emitted), and the output count lies
between 1 and the input count. -/
theorem c4_coalesce_clusters (dist : Vec → Vec → ℚ) (delta : ℚ) (P : List Vec)
    (hP : P ≠ []) :
    coalesce dist delta P = coalesceSpec dist delta P
    ∧ 1 ≤ (coalesce dist delta P).length
    ∧ (coalesce dist delta P).length ≤ P.length := by
  cases P with
  | nil => exact absurd rfl hP
  | cons v rest =>
    have heq : coalesce dist delta (v :: rest) = coalesceSpec dist delta (v :: rest) := by
      unfold coalesce
      simp only [coalesceLoop, List.nil_append]
      rw [coalesceLoop_spec dist delta rest [] [v]]
      simp [coalesceSpec]
    refine ⟨heq, ?_, ?_⟩
    · rw [heq]
      simp only [coalesceSpec]
      exact (coalesceSpecAux_length dist delta rest [v]).1
    · rw [heq]
      simp only [coalesceSpec, List.length_cons]
      have h := (coalesceSpecAux_length dist delta rest [v]).2
      omega

/-- Input document for the C4 witness. -/
def c4P : List Vec := [[1], [2], [2]]

/-- Witness for C4 with the constant-zero distance and threshold 0
(every step draws a boundary). -/
theorem c4_coalesce_clusters_witness :
    (c4P ≠ [])
    ∧ (coalesce (fun _ _ => 0) 0 c4P = coalesceSpec (fun _ _ => 0) 0 c4P
       ∧ 1 ≤ (coalesce (fun _ _ => 0) 0 c4P).length
       ∧ (coalesce (fun _ _ => 0) 0 c4P).length ≤ c4P.length) :=
  ⟨by decide, c4_coalesce_clusters (fun _ _ => 0) 0 c4P (by decide)⟩

/-! The batching document loop of create_coalesced_index. -/

theorem coalesce_length_pos (dist : Vec → Vec → ℚ) (delta : ℚ) (P : List Vec) :
    1 ≤ (coalesce dist delta P).length := by
  simp [coalesce]

theorem coalesceBatchLoop_flatten (dist : Vec → Vec → ℚ) (delta : ℚ) (b : Nat) :
    ∀ (src : List (String × List Vec)) (vecs : List Vec) (dids : List String),
      vecs.length = dids.length →
      ((coalesceBatchLoop dist delta b src vecs dids).map Prod.fst).flatten
          = vecs ++ (src.map fun q => coalesce dist delta q.2).flatten
      ∧ ((coalesceBatchLoop dist delta b src vecs dids).map Prod.snd).flatten
          = dids ++ (src.map fun q =>
              List.replicate (coalesce dist delta q.2).length q.1).flatten := by
  intro src
  induction src with
  | nil =>
    intro vecs dids hlen
    simp only [coalesceBatchLoop]
    by_cases h0 : 0 < vecs.length
    · rw [if_pos h0]
      simp
    · rw [if_neg h0]
      have hv : vecs = [] := by
        cases vecs with
        | nil => rfl
        | cons x xs => simp at h0
      have hd : dids = [] := by
        rw [hv] at hlen
        exact (List.length_eq_zero.mp hlen.symm)
      simp [hv, hd]
  | cons q rest ih =>
    intro vecs dids hlen
    obtain ⟨d, vs⟩ := q
    simp only [coalesceBatchLoop]
    by_cases hb : vecs.length = b
    · rw [if_pos hb]
      obtain ⟨j1, j2⟩ := ih (coalesce dist delta vs)
        (List.replicate (coalesce dist delta vs).length d) (by simp)
      refine ⟨?_, ?_⟩
      · simp only [List.map_cons, List.flatten_cons, j1]
      · simp only [List.map_cons, List.flatten_cons, j2]
    · rw [if_neg hb]
      obtain ⟨j1, j2⟩ := ih (vecs ++ coalesce dist delta vs)
        (dids ++ List.replicate (coalesce dist delta vs).length d) (by simp [hlen])
      refine ⟨?_, ?_⟩
      · rw [j1]
        simp
      · rw [j2]
        simp

theorem coalesceBatchLoop_midflush_sizes (dist : Vec → Vec → ℚ) (delta : ℚ) (b : Nat) :
    ∀ (src : List (String × List Vec)) (vecs : List Vec) (dids : List String),
      ∀ f ∈ (coalesceBatchLoop dist delta b src vecs dids).dropLast, f.1.length = b := by
  intro src
  induction src with
  | nil =>
    intro vecs dids f hf
    by_cases h0 : 0 < vecs.length <;> simp [coalesceBatchLoop, h0] at hf
  | cons q rest ih =>
    intro vecs dids f hf
    obtain ⟨d, vs⟩ := q
    simp only [coalesceBatchLoop] at hf
    by_cases hb : vecs.length = b
    · rw [if_pos hb] at hf
      cases hrec : coalesceBatchLoop dist delta b rest (coalesce dist delta vs)
          (List.replicate (coalesce dist delta vs).length d) with
      | nil =>
        rw [hrec] at hf
        simp at hf
      | cons r rs =>
        rw [hrec] at hf
        simp only [List.dropLast] at hf
        rcases List.mem_cons.mp hf with hf | hf
        · rw [hf]
          exact hb
        · refine ih (coalesce dist delta vs)
            (List.replicate (coalesce dist delta vs).length d) f ?_
          rw [hrec]
          exact hf
    · rw [if_neg hb] at hf
      exact ih _ _ f hf

theorem replicate_flatten_toFinset (dist : Vec → Vec → ℚ) (delta : ℚ) :
    ∀ (src : List (String × List Vec)),
      ((src.map fun q =>
          List.replicate (coalesce dist delta q.2).length q.1).flatten).toFinset
        = (src.map Prod.fst).toFinset := by
  intro src
  induction src with
  | nil => rfl
  | cons q rest ih =>
    obtain ⟨d, vs⟩ := q
    simp only [List.map_cons, List.flatten_cons, List.toFinset_append, List.toFinset_cons, ih]
    have h := coalesce_length_pos dist delta vs
    rw [List.toFinset_replicate_of_ne_zero (by omega), Finset.insert_eq]

theorem flushedDocIds_toFinset (dist : Vec → Vec → ℚ) (delta : ℚ) (b : Nat)
    (src : List (String × List Vec)) :
    (flushedDocIds (coalesceBatchLoop dist delta b src [] [])).toFinset
      = (src.map Prod.fst).toFinset := by
  unfold flushedDocIds
  rw [(coalesceBatchLoop_flatten dist delta b src [] [] rfl).2]
  simp only [List.nil_append]
  exact replicate_flatten_toFinset dist delta src

theorem createCoalescedIndex_empty_target (dist : Vec → Vec → ℚ) (delta : ℚ)
    (source : List (String × List Vec)) (batchSize : Option Nat) :
    createCoalescedIndex dist delta source batchSize [] = Except.ok
      (coalesceBatchLoop dist delta (effectiveBatchSize batchSize source.length)
        source [] []) := by
  have hset :=
    flushedDocIds_toFinset dist delta (effectiveBatchSize batchSize source.length) source
  simp only [createCoalescedIndex, List.length_nil]
  rw [if_pos hset.symm]
  simp

/-- C9: coalescing into a target that already holds a document fails with
the precondition assert before anything is written to the target, while
with an empty target it succeeds and the set of doc ids flushed to the
target equals the set of source doc ids, for every distance function and
every delta. -/
theorem c9_precondition_and_doc_id_set (dist : Vec → Vec → ℚ) (delta : ℚ)
    (source : List (String × List Vec)) (batchSize : Option Nat)
    (targetDocIds : List String) (h : targetDocIds ≠ []) :
    createCoalescedIndex dist delta source batchSize targetDocIds
        = Except.error assertErrorMsg
    ∧ createCoalescedIndex dist delta source batchSize [] = Except.ok
        (coalesceBatchLoop dist delta (effectiveBatchSize batchSize source.length)
          source [] [])
    ∧ (flushedDocIds (coalesceBatchLoop dist delta
          (effectiveBatchSize batchSize source.length) source [] [])).toFinset
        = (source.map Prod.fst).toFinset := by
  refine ⟨?_, createCoalescedIndex_empty_target dist delta source batchSize,
    flushedDocIds_toFinset dist delta _ source⟩
  unfold createCoalescedIndex
  rw [if_neg (by simpa using h)]

/-- Witness for C9 at a one-document source and a non-empty target. -/
theorem c9_precondition_and_doc_id_set_witness :
    ((["t"] : List String) ≠ [])
    ∧ (createCoalescedIndex (fun _ _ => 0) 0 [("a", [[1]])] none ["t"]
          = Except.error assertErrorMsg
       ∧ createCoalescedIndex (fun _ _ => 0) 0 [("a", [[1]])] none [] = Except.ok
           (coalesceBatchLoop (fun _ _ => 0) 0
             (effectiveBatchSize none ([("a", [[1]])] : List (String × List Vec)).length)
             [("a", [[1]])] [] [])
       ∧ (flushedDocIds (coalesceBatchLoop (fun _ _ => 0) 0
             (effectiveBatchSize none ([("a", [[1]])] : List (String × List Vec)).length)
             [("a", [[1]])] [] [])).toFinset
            = (([("a", [[1]])] : List (String × List Vec)).map Prod.fst).toFinset) :=
  ⟨by decide,
    c9_precondition_and_doc_id_set (fun _ _ => 0) 0 [("a", [[1]])] none ["t"] (by decide)⟩

/-- C5 (amended): the document loop flushes to the target exactly the
coalesced rows of every document, in order, with the matching doc ids;
every flush before the last one carries exactly `batch_size` vectors (a
mid-run flush fires only when the accumulated count equals `batch_size`
exactly, checked before each document); and on an empty target the whole
run succeeds with precisely these flushes. -/
theorem c5_batching (dist : Vec → Vec → ℚ) (delta : ℚ)
    (source : List (String × List Vec)) (batchSize : Option Nat) :
    ((coalesceBatchLoop dist delta (effectiveBatchSize batchSize source.length)
        source [] []).map Prod.fst).flatten
        = (source.map fun q => coalesce dist delta q.2).flatten
    ∧ ((coalesceBatchLoop dist delta (effectiveBatchSize batchSize source.length)
        source [] []).map Prod.snd).flatten
        = (source.map fun q => List.replicate (coalesce dist delta q.2).length q.1).flatten
    ∧ ((coalesceBatchLoop dist delta (effectiveBatchSize batchSize source.length)
        source [] []).dropLast.all
          fun f => f.1.length == effectiveBatchSize batchSize source.length) = true
    ∧ createCoalescedIndex dist delta source batchSize [] = Except.ok
        (coalesceBatchLoop dist delta (effectiveBatchSize batchSize source.length)
          source [] []) := by
  obtain ⟨j1, j2⟩ :=
    coalesceBatchLoop_flatten dist delta (effectiveBatchSize batchSize source.length)
      source [] [] rfl
  refine ⟨by simpa using j1, by simpa using j2, ?_,
    createCoalescedIndex_empty_target dist delta source batchSize⟩
  rw [List.all_eq_true]
  intro f hf
  have h := coalesceBatchLoop_midflush_sizes dist delta
    (effectiveBatchSize batchSize source.length) source [] [] f hf
  simp [h]

/-- Source for the C5 counterexample: doc `d1` yields two rows, doc `d2`
yields one. -/
def c5Source : List (String × List Vec) := [("d1", [[1], [2]]), ("d2", [[3]])]

/-- Counterexample to C5 as stated: with `batch_size = 1` the accumulated
count passes 1 without ever equalling it, so nothing is flushed until the
single final flush, which carries all three rows (the claim would demand
a flush as soon as the count reached 1). -/
theorem c5_flush_cx :
    ((createCoalescedIndex (fun _ _ => 0) 0 c5Source (some 1) []).toOption.map
        fun flushes => flushes.map Prod.snd)
      = some [["d1", "d1", "d2"]] := by decide

/-- Counterexample to C7: loading with the backing file missing
succeeds instead of failing with a not-found error. -/
theorem c7_load_missing_cx : (load none Mode.PASSAGE 32 1024).isOk = true := rfl

/-- C7 (amended): `load` performs no validation at all: it builds the
handle from its arguments alone, with the same successful result whatever
the state of the backing file (missing, corrupt or valid); problems can
only surface on a later access. -/
theorem c7_load_no_validation (file file' : Option Store) (mode : Mode)
    (encoderBatchSize resizeMinVal : Nat) :
    load file mode encoderBatchSize resizeMinVal
        = load file' mode encoderBatchSize resizeMinVal
    ∧ (load file mode encoderBatchSize resizeMinVal).isOk = true :=
  ⟨rfl, rfl⟩

/-! Failure atomicity of `_add`. -/

theorem applyAll_nil (s : Store) : applyAll [] s = s := rfl

theorem applyAll_cons (f : Store → Store) (fs : List (Store → Store)) (s : Store) :
    applyAll (f :: fs) s = applyAll fs (f s) := rfl

theorem applyAll_append (a b : List (Store → Store)) (s : Store) :
    applyAll (a ++ b) s = applyAll b (applyAll a s) := by
  simp [applyAll, List.foldl_append]

theorem idSteps_applyAll :
    ∀ (l : List (Option String × Option String)) (s : Store) (off : Nat),
      applyAll (idSteps off l) s = recordIds s off l := by
  intro l
  induction l with
  | nil => intro s off; rfl
  | cons hd rest ih =>
    intro s off
    obtain ⟨d, p⟩ := hd
    cases d <;> cases p <;>
      simp only [idSteps, recordIds, recordIdsStep, List.nil_append, List.cons_append,
        applyAll_cons, applyAll_nil, List.append_nil] <;>
      exact ih _ _

/-- C8 (amended): `_add` is the sequential application of its file
mutations (optional resize, bulk row write, count increment, then one
record per given id): running the whole sequence is exactly `add`, and a
failure that interrupts the sequence leaves exactly the earlier
mutations applied, so count may already be incremented and ids partially
recorded. -/
theorem c8_add_is_mutation_sequence (s : Store) (vecs : List Vec)
    (docIds psgIds : List (Option String)) :
    applyAll (addSteps s vecs docIds psgIds) s = s.add vecs docIds psgIds := by
  by_cases h : vecs.length > s.capacity - s.numVectors
  · simp only [addSteps, Store.add, if_pos h, applyAll_append, applyAll_cons, applyAll_nil,
      idSteps_applyAll]
  · simp only [addSteps, Store.add, if_neg h, applyAll_append, applyAll_cons, applyAll_nil,
      idSteps_applyAll]

/-- Fresh 4-slot store for the C8 counterexample. -/
def c8Store : Store := Store.create 1 4 4

/-- Batch for the C8 counterexample: two vectors with two doc ids. -/
def c8Vecs : List Vec := [[5], [6]]

/-- Doc ids of the C8 batch. -/
def c8Docs : List (Option String) := [some "d1", some "d2"]

/-- Passage ids of the C8 batch (none given). -/
def c8Psgs : List (Option String) := [none, none]

/-- Counterexample to C8 as stated: stopping `_add` after three of its
four mutations leaves `num_vectors` incremented to 2 (initially 0) with
doc id `d1` recorded but `d2` not — a caller-observable state that is
neither the initial one nor the final one (where `d2` maps to offset
1). -/
theorem c8_partial_add_cx :
    (applyFirstK 3 (addSteps c8Store c8Vecs c8Docs c8Psgs) c8Store).numVectors = 2
    ∧ c8Store.numVectors = 0
    ∧ lookupList
        ((applyFirstK 3 (addSteps c8Store c8Vecs c8Docs c8Psgs) c8Store).docGroup.getD [])
        "d1" = some [0]
    ∧ lookupList
        ((applyFirstK 3 (addSteps c8Store c8Vecs c8Docs c8Psgs) c8Store).docGroup.getD [])
        "d2" = none
    ∧ lookupList ((c8Store.add c8Vecs c8Docs c8Psgs).docGroup.getD []) "d2"
        = some [1] := by
  refine ⟨by decide, rfl, by decide, by decide, by decide⟩

end FastForward
